import Mathlib

/-!
# Portfolio page script (`main.js`): particle field and project sync

A shallow embedding of the two stateful pieces of `src/main.js`:

* the hero-canvas animation (`Particle.reset`, `Particle.update`, `Particle.draw`,
  `drawScanLine`), with canvas-space numbers taken in exact rational arithmetic and every
  `Math.random()` result passed in explicitly;
* the GitHub sync (`deriveCategory`, `buildCard`, `loadGitHubProjects`), with JavaScript
  strings as lists of UTF-16 code units and the page as the three DOM nodes the function
  writes to.
-/

namespace Portfolio

/-! ## JavaScript strings -/

/-- A JavaScript string: its sequence of UTF-16 code units, so that `List.length` is the
`.length` property and `List.take` is `.slice(0, n)`. -/
abbrev JSString := List Nat

/-- UTF-16 encoding of one Unicode scalar value (a surrogate pair above the BMP). -/
def utf16 (c : Char) : List Nat :=
  if c.toNat < 0x10000 then [c.toNat]
  else [0xD800 + (c.toNat - 0x10000) / 0x400, 0xDC00 + (c.toNat - 0x10000) % 0x400]

/-- A string literal of the source, as a JavaScript string. -/
def lit (s : String) : JSString :=
  s.toList.flatMap utf16

/-- Lowercasing of one code unit: `A`..`Z` go to `a`..`z`. -/
def lowerUnit (u : Nat) : Nat :=
  if 65 ≤ u ∧ u ≤ 90 then u + 32 else u

/-- `String.prototype.toLowerCase` on the ASCII repertoire: repository names are made of
ASCII letters, digits, `.`, `-` and `_`, and language names are ASCII; code units outside
`A`..`Z` are left as they are. -/
def toLowerCase (s : JSString) : JSString :=
  s.map lowerUnit

/-- `String.prototype.includes`: does `pat` occur in `s` as a contiguous substring. -/
def includes : JSString → JSString → Bool
  | [], pat => pat.isEmpty
  | c :: cs, pat => pat.isPrefixOf (c :: cs) || includes cs pat

/-- Digits of a natural number in base ten, most significant first (`fuel` bounds the
number of digits). -/
def decimalDigits : Nat → Nat → List Nat → List Nat
  | 0, _, acc => acc
  | fuel + 1, n, acc =>
    if n < 10 then (48 + n) :: acc
    else decimalDigits fuel (n / 10) ((48 + n % 10) :: acc)

/-- `Number::toString` on an integer (of magnitude below `10^21`, where JavaScript prints
plain decimal digits). -/
def numberToString (n : Int) : JSString :=
  if n < 0 then 45 :: decimalDigits (n.natAbs + 1) n.natAbs []
  else decimalDigits (n.natAbs + 1) n.natAbs []

/-- `String.prototype.padStart(width, '0')`. -/
def padStart (s : JSString) (width : Nat) : JSString :=
  List.replicate (width - s.length) 48 ++ s

/-- `s.replace(/c/g, ' ')`-style replacement of every occurrence of one code unit. -/
def replaceAll (s : JSString) (c by_ : Nat) : JSString :=
  s.map fun u => if u = c then by_ else u

/-! ## Repository records -/

/-- The fields of a repository record that the script reads.  `language` and
`description` are nullable in the API (`none` is `null`). -/
structure Repo where
  id : Nat
  name : JSString
  description : Option JSString
  language : Option JSString
  stargazers_count : Int
  html_url : JSString
  fork : Bool
deriving DecidableEq

/-- The operand `x || ''` for a nullable string field. -/
def orEmpty : Option JSString → JSString
  | some s => s
  | none => []

/-- Category label of a repository (`deriveCategory` inside `loadGitHubProjects`). -/
def deriveCategory (repo : Repo) : JSString :=
  let name := toLowerCase repo.name
  let lang := toLowerCase (orEmpty repo.language)
  if includes name (lit "voice") || includes name (lit "spoof") || includes name (lit "audio") then
    lit "Audio Security · ML"
  else if includes name (lit "eye") || includes name (lit "disease") then
    lit "Healthcare · Deep Learning"
  else if includes name (lit "medicine") || includes name (lit "overdose")
      || includes name (lit "health") then
    lit "Healthcare · ML"
  else if includes name (lit "agriculture") || includes name (lit "crop")
      || includes name (lit "farm") then
    lit "Agriculture · Deep Learning"
  else if includes name (lit "forest") || includes name (lit "fire") then
    lit "Environment · ML"
  else if includes name (lit "paint") || includes name (lit "tamil")
      || includes name (lit "heritage") then
    lit "Cultural Heritage · CV"
  else if includes name (lit "chatbot") || includes name (lit "qa") || includes name (lit "nlp")
      || includes name (lit "question") then
    lit "NLP · Chatbot"
  else if includes name (lit "ecommerce") || includes name (lit "shop")
      || includes name (lit "store") then
    lit "Web · JavaScript"
  else if includes name (lit "portfolio") then lit "Web · Personal"
  else if lang = lit "python" then lit "Python · ML"
  else if lang = lit "javascript" then lit "Web · JavaScript"
  else if lang = lit "r" then lit "Data Analysis · R"
  else if lang = lit "jupyter notebook" then lit "Data Science · Notebook"
  else if lang ≠ [] then orEmpty repo.language ++ lit " · Project"
  else lit "Project"

/-! ## Project cards -/

/-- The local constants `buildCard` computes before filling its template. -/
structure CardFields where
  num : JSString
  category : JSString
  stars : JSString
  desc : JSString
  langTag : JSString
  featured : JSString
deriving DecidableEq

/-- The `const` section of `buildCard(repo, index)`. -/
def cardFields (repo : Repo) (index : Nat) : CardFields where
  num := padStart (numberToString (index + 1)) 2
  category := deriveCategory repo
  stars :=
    if repo.stargazers_count > 0 then lit "⭐ " ++ numberToString repo.stargazers_count
    else lit "⭐ New"
  desc :=
    match repo.description with
    | some d =>
      if d ≠ [] then d.take 160 ++ (if d.length > 160 then lit "…" else [])
      else lit "Explore this project on GitHub."
    | none => lit "Explore this project on GitHub."
  langTag :=
    match repo.language with
    | some l => if l ≠ [] then lit "<span>" ++ l ++ lit "</span>" else []
    | none => []
  featured := if index % 3 = 0 then lit " project-card--featured" else []

/-- The markup `buildCard(repo, index)` returns: the template literal with its holes
filled from `cardFields`. -/
def buildCard (repo : Repo) (index : Nat) : JSString :=
  let f := cardFields repo index
  lit "\n        <article class=\"project-card" ++ f.featured
  ++ lit " reveal\" id=\"proj-gh-" ++ numberToString repo.id
  ++ lit "\" style=\"transition-delay:" ++ numberToString (index * 60)
  ++ lit "ms\">\n            <div class=\"project-card-inner\">\n                <div class=\"project-number\">"
  ++ f.num
  ++ lit "</div>\n                <div class=\"project-category\">" ++ f.category
  ++ lit "</div>\n                <h3 class=\"project-title\">"
  ++ replaceAll (replaceAll repo.name 45 32) 95 32
  ++ lit "</h3>\n                <p class=\"project-desc\">" ++ f.desc
  ++ lit "</p>\n                <div class=\"project-stack\">" ++ f.langTag
  ++ lit "</div>\n                <div class=\"project-footer\">\n                    <div class=\"project-stars\">"
  ++ f.stars
  ++ lit "</div>\n                    <a href=\"" ++ repo.html_url
  ++ lit "\" target=\"_blank\" rel=\"noopener\"\n                       class=\"project-link\" aria-label=\"View "
  ++ repo.name
  ++ lit " on GitHub\">\n                        View Project ↗\n                    </a>\n                </div>\n            </div>\n            <div class=\"project-card-glow\"></div>\n        </article>"

/-! ## The sync pipeline -/

/-- The account whose repositories are listed. -/
def GITHUB_USER : JSString := lit "Bavatarinee"

/-- Outcome of the single `fetch` and of reading its body: the promise rejects (network
failure, with the error's message), or a response arrives with a status code and a body
that `res.json()` either fails on (with a message) or parses to a list of records. -/
inductive FetchResult where
  | rejected (message : JSString)
  | response (status : Nat) (body : Except JSString (List Repo))

/-- The `ok` flag of a response: a status in `200..299`. -/
def okStatus (status : Nat) : Bool :=
  decide (200 ≤ status) && decide (status ≤ 299)

/-- The DOM nodes `loadGitHubProjects` writes to: the `innerHTML` of `#projects-grid`,
and the `textContent` of `#sync-status` and of the hero counter, each `none` when the
element is missing from the page. -/
structure Page where
  grid : JSString
  syncStatus : Option JSString
  metaNum : Option JSString
deriving DecidableEq

/-- One observable effect of the function, in program order. -/
inductive Write where
  | warn (message : JSString)
  | gridInnerHTML (html : JSString)
  | metaNumText (text : JSString)
  | syncStatusText (text : JSString)
deriving DecidableEq

/-- Effect of one write on the page. -/
def Page.write (page : Page) : Write → Page
  | .warn _ => page
  | .gridInnerHTML html => { page with grid := html }
  | .metaNumText text => { page with metaNum := page.metaNum.map fun _ => text }
  | .syncStatusText text => { page with syncStatus := page.syncStatus.map fun _ => text }

/-- The predicate of `repos.filter(...)`. -/
def keepRepo (r : Repo) : Bool :=
  !r.fork
    && toLowerCase r.name != toLowerCase GITHUB_USER
    && !includes (toLowerCase r.name) (lit "config")
    && !includes (toLowerCase r.name) (lit ".github")

/-- The list `filtered.map(buildCard)`: `Array.prototype.map` hands each record its
position in `filtered` as the index. -/
def renderCards (filtered : List Repo) : List JSString :=
  filtered.enum.map fun ir => buildCard ir.2 ir.1

/-- The `try` block: every `throw` precedes the first write, so the block either throws
(with the error's message) before touching the page, or runs all its writes.
`timeText` is the result of `now.toLocaleTimeString(...)`. -/
def syncBody (page : Page) (timeText : JSString) : FetchResult → Except JSString (List Write)
  | .rejected message => .error message
  | .response status body =>
    if !okStatus status then .error (lit "GitHub API " ++ numberToString status)
    else
      match body with
      | .error message => .error message
      | .ok repos =>
        let filtered := repos.filter keepRepo
        if filtered.length = 0 then .error (lit "No repos found")
        else
          .ok ([Write.gridInnerHTML (renderCards filtered).flatten]
            ++ (if page.metaNum.isSome then [Write.metaNumText (numberToString filtered.length)]
                else [])
            ++ (if page.syncStatus.isSome then
                  [Write.syncStatusText (lit "Live — synced from GitHub · "
                    ++ numberToString filtered.length ++ lit " repos · updated " ++ timeText)]
                else []))

/-- The markup of the fallback notice. -/
def errorNotice : JSString :=
  lit "\n        <div class=\"github-error-card\">\n            <p>📡 Could not load live GitHub data right now.</p>\n            <p style=\"margin-top:0.75rem\">\n                <a href=\"https://github.com/"
  ++ GITHUB_USER
  ++ lit "\" target=\"_blank\" rel=\"noopener\">\n                    View all projects on GitHub ↗\n                </a>\n            </p>\n        </div>"

/-- The writes of `loadGitHubProjects`, in order: those of the `try` block, or those of
the `catch` block when it threw. -/
def loadGitHubProjectsWrites (page : Page) (timeText : JSString) (res : FetchResult) :
    List Write :=
  match syncBody page timeText res with
  | .ok ws => ws
  | .error message =>
    [Write.warn message, Write.gridInnerHTML errorNotice]
      ++ (if page.syncStatus.isSome then [Write.syncStatusText (lit "Could not sync — see GitHub")]
          else [])

/-- The page after `loadGitHubProjects` has run to completion. -/
def loadGitHubProjects (page : Page) (timeText : JSString) (res : FetchResult) : Page :=
  (loadGitHubProjectsWrites page timeText res).foldl Page.write page

/-! ## Hero canvas -/

/-- The successive `Math.random()` results one `reset` consumes, named after the field
each one feeds (`y` is consumed only when `initial` is true). -/
structure Draws where
  x : ℚ
  y : ℚ
  r : ℚ
  vy : ℚ
  vx : ℚ
  alpha : ℚ
  life : ℚ
  hue : ℚ
  sat : ℚ
  l : ℚ

/-- Every `Math.random()` result lies in `[0, 1)`. -/
def Draws.InRange (d : Draws) : Prop :=
  (0 ≤ d.x ∧ d.x < 1) ∧ (0 ≤ d.y ∧ d.y < 1) ∧ (0 ≤ d.r ∧ d.r < 1) ∧ (0 ≤ d.vy ∧ d.vy < 1)
    ∧ (0 ≤ d.vx ∧ d.vx < 1) ∧ (0 ≤ d.alpha ∧ d.alpha < 1) ∧ (0 ≤ d.life ∧ d.life < 1)
    ∧ (0 ≤ d.hue ∧ d.hue < 1) ∧ (0 ≤ d.sat ∧ d.sat < 1) ∧ (0 ≤ d.l ∧ d.l < 1)

/-- The fields of a `Particle`. -/
structure Particle where
  x : ℚ
  y : ℚ
  r : ℚ
  vy : ℚ
  vx : ℚ
  alpha : ℚ
  life : ℚ
  age : ℚ
  hue : ℚ
  sat : ℚ
  l : ℚ

/-- `Particle.reset(initial)` on a canvas of size `W × H`: every field is overwritten. -/
def Particle.reset (W H : ℚ) (initial : Bool) (d : Draws) : Particle where
  x := d.x * W
  y := if initial then d.y * H else H + 10
  r := d.r * (12 / 10) + 2 / 10
  vy := -(d.vy * (4 / 10) + 12 / 100)
  vx := (d.vx - 5 / 10) * (2 / 10)
  alpha := d.alpha * (5 / 10) + 1 / 10
  life := d.life * 200 + 100
  age := 0
  hue := if d.hue > 7 / 10 then 90 else 135
  sat := d.sat * 20 + 35
  l := d.l * 20 + 45

/-- `Particle.update()`; `d` holds the random results used if the particle resets. -/
def Particle.update (W H : ℚ) (p : Particle) (d : Draws) : Particle :=
  let q := { p with x := p.x + p.vx, y := p.y + p.vy, age := p.age + 1 }
  if q.age > q.life ∨ q.y < -10 then Particle.reset W H false d else q

/-- The value `Particle.draw()` assigns to `ctx.globalAlpha`. -/
def Particle.draw (p : Particle) : ℚ :=
  let t := p.age / p.life
  p.alpha * (if t < 1 / 10 then t / (1 / 10) else if t > 8 / 10 then (1 - t) / (2 / 10) else 1)

/-- The particle after the constructor (`reset(true)` with draws `d0`) and one `update()`
per element of `ds`. -/
def Particle.run (W H : ℚ) (initial : Bool) (d0 : Draws) (ds : List Draws) : Particle :=
  ds.foldl (Particle.update W H) (Particle.reset W H initial d0)

/-- The new value of `scanY` after one `drawScanLine()` on a canvas of height `H`. -/
def drawScanLine (H scanY : ℚ) : ℚ :=
  let s := scanY + 1 / 2
  if s > H + 60 then -60 else s

/-- The value of `scanY` after `n` calls of `drawScanLine()`, from its initial value `0`. -/
def scanYAfter (H : ℚ) : Nat → ℚ
  | 0 => 0
  | n + 1 => drawScanLine H (scanYAfter H n)

/-! ## The category rule as the specification words it -/

/-- The keyword groups of the category rule in their priority order, each with the label
it stands for. -/
def keywordGroups : List (List JSString × JSString) :=
  [ ([lit "voice", lit "spoof", lit "audio"], lit "Audio Security · ML"),
    ([lit "eye", lit "disease"], lit "Healthcare · Deep Learning"),
    ([lit "medicine", lit "overdose", lit "health"], lit "Healthcare · ML"),
    ([lit "agriculture", lit "crop", lit "farm"], lit "Agriculture · Deep Learning"),
    ([lit "forest", lit "fire"], lit "Environment · ML"),
    ([lit "paint", lit "tamil", lit "heritage"], lit "Cultural Heritage · CV"),
    ([lit "chatbot", lit "qa", lit "nlp", lit "question"], lit "NLP · Chatbot"),
    ([lit "ecommerce", lit "shop", lit "store"], lit "Web · JavaScript"),
    ([lit "portfolio"], lit "Web · Personal") ]

/-- Some keyword of the group occurs in `name` as a contiguous substring. -/
def GroupOccurs (name : JSString) (g : List JSString × JSString) : Prop :=
  ∃ kw ∈ g.1, kw <:+: name

instance (name : JSString) (g : List JSString × JSString) : Decidable (GroupOccurs name g) :=
  inferInstanceAs (Decidable (∃ kw ∈ g.1, kw <:+: name))

/-- The first keyword group, in priority order, with a keyword occurring in `name`. -/
def firstKeywordGroup (name : JSString) : Option (List JSString × JSString) :=
  keywordGroups.find? fun g => decide (GroupOccurs name g)

/-- The language-based label: a fixed label for four known languages compared ignoring
case, the language followed by " · Project" for any other one, and "Project" when the
language is absent (null or empty). -/
def languageLabel : Option JSString → JSString
  | none => lit "Project"
  | some l =>
    if l = [] then lit "Project"
    else if toLowerCase l = lit "python" then lit "Python · ML"
    else if toLowerCase l = lit "javascript" then lit "Web · JavaScript"
    else if toLowerCase l = lit "r" then lit "Data Analysis · R"
    else if toLowerCase l = lit "jupyter notebook" then lit "Data Science · Notebook"
    else l ++ lit " · Project"

/-! ## The sync pipeline as the specification words it -/

/-- A record qualifies for rendering: it is not a fork, its lowercased name is not the
lowercased account name "bavatarinee", and its lowercased name contains neither "config"
nor ".github". -/
def Qualifies (r : Repo) : Prop :=
  r.fork = false ∧ toLowerCase r.name ≠ lit "bavatarinee"
    ∧ ¬ lit "config" <:+: toLowerCase r.name ∧ ¬ lit ".github" <:+: toLowerCase r.name

instance : DecidablePred Qualifies := fun r =>
  inferInstanceAs (Decidable (r.fork = false ∧ toLowerCase r.name ≠ lit "bavatarinee"
    ∧ ¬ lit "config" <:+: toLowerCase r.name ∧ ¬ lit ".github" <:+: toLowerCase r.name))

/-- The fetch outcomes on which the sync fails: a network failure, a response whose status
is not a success status, a body that cannot be read as a list of records, or a list with
no qualifying record. -/
def FetchResult.Fails : FetchResult → Prop
  | .rejected _ => True
  | .response status body =>
    ¬ (200 ≤ status ∧ status ≤ 299) ∨ (∃ message, body = .error message)
      ∨ ∃ repos, body = .ok repos ∧ ∀ r ∈ repos, ¬ Qualifies r

/-- The successive values written to the container's `innerHTML`. -/
def gridWrites : List Write → List JSString
  | [] => []
  | .gridInnerHTML html :: ws => html :: gridWrites ws
  | _ :: ws => gridWrites ws

/-- The qualifying records of a response, in the response's order. -/
def qualifying (repos : List Repo) : List Repo :=
  repos.filter fun r => decide (Qualifies r)

/-! ## Sample data -/

/-- A page on which all three elements exist. -/
def samplePage : Page :=
  { grid := lit "<p>Loading…</p>", syncStatus := some (lit "Syncing…"),
    metaNum := some (lit "10+") }

/-- A record like the specification's first example. -/
def eyeRepo : Repo :=
  { id := 1, name := lit "eye-disease-classifier", description := none,
    language := some (lit "Python"), stargazers_count := 3,
    html_url := lit "https://github.com/Bavatarinee/eye-disease-classifier", fork := false }

/-- A record like the specification's second example. -/
def configRepo : Repo :=
  { id := 2, name := lit "my-config", description := some (lit "dotfiles"),
    language := some (lit "Shell"), stargazers_count := 12,
    html_url := lit "https://github.com/Bavatarinee/my-config", fork := false }

/-- A forked repository. -/
def forkedRepo : Repo :=
  { id := 3, name := lit "linux", description := none, language := some (lit "C"),
    stargazers_count := 0, html_url := lit "https://github.com/Bavatarinee/linux",
    fork := true }

/-- The profile-readme repository, named after the account. -/
def profileRepo : Repo :=
  { id := 4, name := lit "Bavatarinee", description := none, language := none,
    stargazers_count := 0, html_url := lit "https://github.com/Bavatarinee/Bavatarinee",
    fork := false }

/-- A record without any domain keyword in its name, whose language is "Rust". -/
def thesisNotes : Repo :=
  { id := 7, name := lit "Thesis-Notes", description := none, language := some (lit "Rust"),
    stargazers_count := 0, html_url := lit "https://github.com/Bavatarinee/Thesis-Notes",
    fork := false }

/-- A response with three records, of which only `eyeRepo` qualifies. -/
def mixedRepos : List Repo :=
  [forkedRepo, eyeRepo, configRepo]

/-- A response with five qualifying records and two excluded ones. -/
def fiveRepos : List Repo :=
  [eyeRepo, profileRepo, thesisNotes, { eyeRepo with id := 8, name := lit "Voice-Spoof" },
    forkedRepo, { thesisNotes with id := 9, name := lit "crop-yield" },
    { thesisNotes with id := 10, name := lit "blog" }]

/-! ## Particle invariant and sample states -/

/-- The bounds every particle state satisfies between two calls. -/
def Particle.Inv (p : Particle) : Prop :=
  0 ≤ p.age ∧ p.age ≤ p.life ∧ 100 ≤ p.life ∧ p.life < 300

/-- Random results all equal to one half. -/
def halfDraws : Draws :=
  { x := 1 / 2, y := 1 / 2, r := 1 / 2, vy := 1 / 2, vx := 1 / 2, alpha := 1 / 2,
    life := 1 / 2, hue := 1 / 2, sat := 1 / 2, l := 1 / 2 }

/-- A particle a quarter of the way through its life. -/
def sampleParticle : Particle :=
  { x := 10, y := 20, r := 1, vy := -1 / 4, vx := 0, alpha := 1 / 2, life := 200, age := 50,
    hue := 135, sat := 40, l := 50 }

/-! ## Facts about strings -/

theorem includes_iff (s pat : JSString) : includes s pat = true ↔ pat <:+: s := by
  induction s with
  | nil => simp [includes, List.isEmpty_iff]
  | cons c cs ih =>
    simp only [includes, Bool.or_eq_true, ih, List.infix_cons_iff, List.isPrefixOf_iff_prefix]

theorem includes_eq_false_iff (s pat : JSString) : includes s pat = false ↔ ¬ pat <:+: s := by
  rw [← includes_iff, Bool.not_eq_true]

theorem toLowerCase_eq_nil (s : JSString) : toLowerCase s = [] ↔ s = [] := by
  simp [toLowerCase]

/-! ## Category derivation -/

theorem languageChain_eq (language : Option JSString) :
    (if toLowerCase (orEmpty language) = lit "python" then lit "Python · ML"
      else if toLowerCase (orEmpty language) = lit "javascript" then lit "Web · JavaScript"
      else if toLowerCase (orEmpty language) = lit "r" then lit "Data Analysis · R"
      else if toLowerCase (orEmpty language) = lit "jupyter notebook" then
        lit "Data Science · Notebook"
      else if toLowerCase (orEmpty language) ≠ [] then orEmpty language ++ lit " · Project"
      else lit "Project") = languageLabel language := by
  have hpy : ([] : JSString) ≠ lit "python" := by decide
  have hjs : ([] : JSString) ≠ lit "javascript" := by decide
  have hr : ([] : JSString) ≠ lit "r" := by decide
  have hnb : ([] : JSString) ≠ lit "jupyter notebook" := by decide
  cases language with
  | none => simp [languageLabel, orEmpty, toLowerCase, hpy, hjs, hr, hnb]
  | some l =>
    by_cases hl : l = []
    · subst hl
      simp [languageLabel, orEmpty, toLowerCase, hpy, hjs, hr, hnb]
    · simp [languageLabel, orEmpty, toLowerCase_eq_nil, hl]

theorem groupOccurs_iff_any (name : JSString) (kws : List JSString) (label : JSString) :
    GroupOccurs name (kws, label) ↔ kws.any (includes name) = true := by
  simp [GroupOccurs, includes_iff]

theorem find?_cons_label (name d : JSString) (g : List JSString × JSString)
    (rest : List (List JSString × JSString)) :
    (match (g :: rest).find? (fun g => decide (GroupOccurs name g)) with
      | some g => g.2
      | none => d)
    = if g.1.any (includes name) = true then g.2
      else match rest.find? (fun g => decide (GroupOccurs name g)) with
        | some g => g.2
        | none => d := by
  obtain ⟨kws, label⟩ := g
  by_cases h : GroupOccurs name (kws, label)
  · have h2 := (groupOccurs_iff_any name kws label).1 h
    simp [List.find?, h, h2]
  · have h2 : ¬ kws.any (includes name) = true := fun hc =>
      h ((groupOccurs_iff_any name kws label).2 hc)
    simp [List.find?, h, h2]

theorem deriveCategory_eq_spec (repo : Repo) :
    deriveCategory repo =
      match firstKeywordGroup (toLowerCase repo.name) with
      | some g => g.2
      | none => languageLabel repo.language := by
  rw [← languageChain_eq]
  simp only [firstKeywordGroup, keywordGroups, find?_cons_label, List.any_cons, List.any_nil,
    Bool.or_false, List.find?_nil]
  simp only [deriveCategory, Bool.or_assoc]

/-- C1: `deriveCategory` returns the label of the first keyword group (in the fixed order
voice/spoof/audio, eye/disease, ..., portfolio) one of whose keywords occurs as a substring
of the lowercased name, whatever the language is, and the language-based label only when
no keyword occurs; the name "eye-disease-classifier" with language "Python" yields
"Healthcare · Deep Learning", which is not "Python · ML". -/
theorem deriveCategory_first_keyword_group_wins (repo : Repo) :
    deriveCategory repo =
        (match firstKeywordGroup (toLowerCase repo.name) with
          | some g => g.2
          | none => languageLabel repo.language)
      ∧ (∀ g, firstKeywordGroup (toLowerCase repo.name) = some g →
          ∀ language, deriveCategory { repo with language := language } = g.2)
      ∧ deriveCategory
          { repo with name := lit "eye-disease-classifier", language := some (lit "Python") }
          = lit "Healthcare · Deep Learning"
      ∧ lit "Healthcare · Deep Learning" ≠ lit "Python · ML" := by
  refine ⟨deriveCategory_eq_spec repo, ?_, ?_, by decide⟩
  · intro g hg language
    rw [deriveCategory_eq_spec]
    simp only [hg]
  · rfl

/-- C8: when no domain keyword occurs in the lowercased name, the label `deriveCategory`
returns is determined by the language alone: "Project" when the language is absent (null
or empty), the fixed label for python, javascript, r and jupyter notebook (compared
ignoring case), and the original language text followed by " · Project" otherwise. -/
theorem deriveCategory_language_fallback (repo : Repo)
    (h : ∀ g ∈ keywordGroups, ∀ kw ∈ g.1, ¬ kw <:+: toLowerCase repo.name) :
    deriveCategory repo = languageLabel repo.language
      ∧ (repo.language = none ∨ repo.language = some [] → deriveCategory repo = lit "Project")
      ∧ ∀ l, repo.language = some l → l ≠ [] →
          (toLowerCase l = lit "python" → deriveCategory repo = lit "Python · ML")
          ∧ (toLowerCase l = lit "javascript" → deriveCategory repo = lit "Web · JavaScript")
          ∧ (toLowerCase l = lit "r" → deriveCategory repo = lit "Data Analysis · R")
          ∧ (toLowerCase l = lit "jupyter notebook" →
              deriveCategory repo = lit "Data Science · Notebook")
          ∧ (toLowerCase l ≠ lit "python" → toLowerCase l ≠ lit "javascript" →
              toLowerCase l ≠ lit "r" → toLowerCase l ≠ lit "jupyter notebook" →
              deriveCategory repo = l ++ lit " · Project") := by
  have hnone : firstKeywordGroup (toLowerCase repo.name) = none := by
    simp only [firstKeywordGroup, List.find?_eq_none, decide_eq_true_eq, GroupOccurs]
    rintro g hg ⟨kw, hkw, hin⟩
    exact h g hg kw hkw hin
  have heq : deriveCategory repo = languageLabel repo.language := by
    rw [deriveCategory_eq_spec, hnone]
  have hjs : lit "javascript" ≠ lit "python" := by decide
  have hr : lit "r" ≠ lit "python" ∧ lit "r" ≠ lit "javascript" := by decide
  have hnb : lit "jupyter notebook" ≠ lit "python" ∧ lit "jupyter notebook" ≠ lit "javascript"
      ∧ lit "jupyter notebook" ≠ lit "r" := by decide
  refine ⟨heq, ?_, ?_⟩
  · rintro (hl | hl) <;> simp [heq, hl, languageLabel]
  · intro l hl hne
    rw [heq, hl]
    refine ⟨?_, ?_, ?_, ?_, ?_⟩
    · intro e
      simp [languageLabel, hne, e]
    · intro e
      simp [languageLabel, hne, e, hjs]
    · intro e
      simp [languageLabel, hne, e, hr.1, hr.2]
    · intro e
      simp [languageLabel, hne, e, hnb.1, hnb.2.1, hnb.2.2]
    · intro e1 e2 e3 e4
      simp [languageLabel, hne, e1, e2, e3, e4]

theorem deriveCategory_language_fallback_witness :
    (∀ g ∈ keywordGroups, ∀ kw ∈ g.1, ¬ kw <:+: toLowerCase thesisNotes.name)
      ∧ deriveCategory thesisNotes = lit "Rust · Project" :=
  have h : ∀ g ∈ keywordGroups, ∀ kw ∈ g.1, ¬ kw <:+: toLowerCase thesisNotes.name := by
    decide
  ⟨h, ((deriveCategory_language_fallback thesisNotes h).2.2 (lit "Rust") rfl (by decide)).2.2.2.2
    (by decide) (by decide) (by decide) (by decide)⟩

/-! ## Numbers and markup -/

theorem decimalDigits_eq_digits (fuel : Nat) :
    ∀ n acc, n < fuel → 0 < n →
      decimalDigits fuel n acc = ((Nat.digits 10 n).reverse.map (48 + ·)) ++ acc := by
  induction fuel with
  | zero => intro n acc h; omega
  | succ fuel ih =>
    intro n acc hlt hpos
    by_cases h10 : n < 10
    · have hd : Nat.digits 10 n = [n] := Nat.digits_of_lt 10 n (by omega) h10
      simp [decimalDigits, h10, hd]
    · have hd : Nat.digits 10 n = (n % 10) :: Nat.digits 10 (n / 10) :=
        Nat.digits_def' (by norm_num) hpos
      have hq : n / 10 < fuel := by omega
      have hq0 : 0 < n / 10 := by omega
      simp [decimalDigits, h10, hd, ih (n / 10) _ hq hq0]

theorem numberToString_pos (n : Int) (h : 0 < n) :
    numberToString n = (Nat.digits 10 n.toNat).reverse.map (48 + ·) := by
  have hn : ¬ n < 0 := by omega
  have habs : n.natAbs = n.toNat := by omega
  simp only [numberToString, hn, if_false, habs]
  rw [decimalDigits_eq_digits _ _ _ (Nat.lt_succ_self _) (by omega), List.append_nil]

theorem infix_append_skip {a b l : JSString} (h : l <:+: b) : l <:+: a ++ b :=
  h.trans (List.suffix_append a b).isInfix

theorem infix_append_here (a s c rest : JSString) : a ++ (s ++ c) <:+: a ++ (s ++ (c ++ rest)) :=
  ⟨[], rest, by simp⟩

/-- C9: the star badge `buildCard` puts in the card is "⭐ " followed by the decimal star
count when `stargazers_count > 0` and "⭐ New" otherwise; it depends on no other field and
not on the index, and a count of 3 gives "⭐ 3". -/
theorem buildCard_star_badge (repo : Repo) (index : Nat) :
    (0 < repo.stargazers_count →
        (cardFields repo index).stars
          = lit "⭐ " ++ (Nat.digits 10 repo.stargazers_count.toNat).reverse.map (48 + ·))
      ∧ (repo.stargazers_count ≤ 0 → (cardFields repo index).stars = lit "⭐ New")
      ∧ (∀ (other : Repo) (j : Nat), other.stargazers_count = repo.stargazers_count →
          (cardFields other j).stars = (cardFields repo index).stars)
      ∧ (lit "<div class=\"project-stars\">" ++ ((cardFields repo index).stars ++ lit "</div>")
          <:+: buildCard repo index)
      ∧ (cardFields { repo with stargazers_count := 3 } index).stars = lit "⭐ 3" := by
  refine ⟨?_, ?_, ?_, ?_, rfl⟩
  · intro h
    simp only [cardFields, gt_iff_lt, h, if_true, numberToString_pos _ h]
  · intro h
    have h2 : ¬ 0 < repo.stargazers_count := by omega
    simp only [cardFields, gt_iff_lt, h2, if_false]
  · intro other j h
    simp only [cardFields, h]
  · have e1 : lit "</div>\n                <div class=\"project-footer\">\n                    <div class=\"project-stars\">"
        = lit "</div>\n                <div class=\"project-footer\">\n                    "
          ++ lit "<div class=\"project-stars\">" := by decide
    have e2 : lit "</div>\n                    <a href=\""
        = lit "</div>" ++ lit "\n                    <a href=\"" := by decide
    simp only [buildCard, e1, e2, List.append_assoc]
    repeat first
      | exact infix_append_here _ _ _ _
      | apply infix_append_skip

/-- C10: for a non-empty description `d` the rendered description is `d` itself when `d`
has at most 160 code units and otherwise its first 160 code units followed by the single
character "…"; it is never longer than 161, agrees with `d` on the first 160 positions,
and is the fixed text "Explore this project on GitHub." when the description is absent or
empty. -/
theorem buildCard_description (repo : Repo) (index : Nat) :
    (∀ d, repo.description = some d → d ≠ [] →
        (d.length ≤ 160 → (cardFields repo index).desc = d)
        ∧ (160 < d.length → (cardFields repo index).desc = d.take 160 ++ lit "…")
        ∧ (cardFields repo index).desc.length ≤ 161
        ∧ (cardFields repo index).desc.take 160 = d.take 160)
      ∧ (repo.description = none ∨ repo.description = some [] →
          (cardFields repo index).desc = lit "Explore this project on GitHub.")
      ∧ (lit "…").length = 1
      ∧ (lit "<p class=\"project-desc\">" ++ ((cardFields repo index).desc ++ lit "</p>")
          <:+: buildCard repo index)
      ∧ (cardFields { repo with description := some (List.replicate 161 97) } index).desc
          = List.replicate 160 97 ++ lit "…" := by
  have hell : (lit "…").length = 1 := by decide
  refine ⟨?_, ?_, hell, ?_, ?_⟩
  · intro d hd hne
    have hdesc : (cardFields repo index).desc
        = d.take 160 ++ (if d.length > 160 then lit "…" else []) := by
      simp only [cardFields, hd, ne_eq, hne, not_false_eq_true, if_true]
    rw [hdesc]
    by_cases hlen : d.length > 160
    · rw [if_pos hlen]
      refine ⟨fun h => absurd hlen (by omega), fun _ => rfl, ?_, ?_⟩
      · simp only [List.length_append, List.length_take, hell]
        omega
      · rw [List.take_append_of_le_length (by simp only [List.length_take]; omega)]
        simp only [List.take_take, min_self]
    · rw [if_neg hlen, List.append_nil]
      refine ⟨fun _ => List.take_of_length_le (by omega), fun h => absurd h hlen, ?_, ?_⟩
      · simp only [List.length_take]
        omega
      · simp only [List.take_take, min_self]
  · rintro (h | h) <;> simp [cardFields, h]
  · have e1 : lit "</h3>\n                <p class=\"project-desc\">"
        = lit "</h3>\n                " ++ lit "<p class=\"project-desc\">" := by decide
    have e2 : lit "</p>\n                <div class=\"project-stack\">"
        = lit "</p>" ++ lit "\n                <div class=\"project-stack\">" := by decide
    simp only [buildCard, e1, e2, List.append_assoc]
    repeat first
      | exact infix_append_here _ _ _ _
      | apply infix_append_skip
  · show (if List.replicate 161 97 ≠ [] then
        (List.replicate 161 97).take 160
          ++ (if (List.replicate 161 97).length > 160 then lit "…" else [])
      else lit "Explore this project on GitHub.") = List.replicate 160 97 ++ lit "…"
    have hne : List.replicate 161 97 ≠ ([] : List Nat) := by
      simp only [ne_eq, List.replicate_eq_nil_iff, not_false_eq_true, reduceCtorEq,
        OfNat.ofNat_ne_zero]
    rw [if_pos hne, List.length_replicate, if_pos (by norm_num), List.take_replicate]
    rfl

/-! ## Sync pipeline: success and failure -/

theorem keepRepo_iff (r : Repo) : keepRepo r = true ↔ Qualifies r := by
  have hu : toLowerCase GITHUB_USER = lit "bavatarinee" := by decide
  simp only [keepRepo, Qualifies, hu, Bool.and_eq_true, Bool.not_eq_true', bne_iff_ne, ne_eq,
    includes_eq_false_iff, and_assoc]

theorem filter_keepRepo (repos : List Repo) :
    repos.filter keepRepo = repos.filter fun r => decide (Qualifies r) :=
  List.filter_congr fun r _ => by
    by_cases h : Qualifies r
    · simp [h, (keepRepo_iff r).2 h]
    · have h2 : keepRepo r = false := by
        rw [← Bool.not_eq_true]
        exact fun hc => h ((keepRepo_iff r).1 hc)
      simp [h, h2]

theorem okStatus_iff (status : Nat) : okStatus status = true ↔ 200 ≤ status ∧ status ≤ 299 := by
  simp [okStatus]

theorem syncBody_success (page : Page) (timeText : JSString) (status : Nat) (repos : List Repo)
    (hok : 200 ≤ status ∧ status ≤ 299) (hq : ∃ r ∈ repos, Qualifies r) :
    syncBody page timeText (.response status (.ok repos))
      = .ok ([Write.gridInnerHTML
                (renderCards (repos.filter fun r => decide (Qualifies r))).flatten]
          ++ (if page.metaNum.isSome then
                [Write.metaNumText
                  (numberToString (repos.filter fun r => decide (Qualifies r)).length)]
              else [])
          ++ (if page.syncStatus.isSome then
                [Write.syncStatusText (lit "Live — synced from GitHub · "
                  ++ numberToString (repos.filter fun r => decide (Qualifies r)).length
                  ++ lit " repos · updated " ++ timeText)]
              else [])) := by
  have h1 : okStatus status = true := (okStatus_iff status).2 hok
  have h2 : ¬ (repos.filter fun r => decide (Qualifies r)).length = 0 := by
    obtain ⟨r, hr, hqr⟩ := hq
    have : r ∈ repos.filter fun r => decide (Qualifies r) :=
      List.mem_filter.2 ⟨hr, by simpa using hqr⟩
    intro h0
    rw [List.length_eq_zero] at h0
    rw [h0] at this
    exact List.not_mem_nil _ this
  simp only [syncBody, h1, Bool.not_true, Bool.false_eq_true, if_false, filter_keepRepo, h2]

theorem syncBody_failure (page : Page) (timeText : JSString) (res : FetchResult)
    (h : res.Fails) : ∃ message, syncBody page timeText res = .error message := by
  cases res with
  | rejected message => exact ⟨message, rfl⟩
  | response status body =>
    by_cases hok : okStatus status = true
    · rcases h with h | ⟨message, rfl⟩ | ⟨repos, rfl, hnone⟩
      · exact absurd ((okStatus_iff status).1 hok) h
      · exact ⟨message, by simp [syncBody, hok]⟩
      · have hnil : repos.filter keepRepo = [] := by
          rw [filter_keepRepo, List.filter_eq_nil_iff]
          intro r hr
          simpa using hnone r hr
        exact ⟨lit "No repos found", by simp [syncBody, hok, hnil]⟩
    · exact ⟨lit "GitHub API " ++ numberToString status, by simp [syncBody, hok]⟩

theorem renderCards_getElem? (shown : List Repo) (i : Nat) :
    (renderCards shown)[i]? = shown[i]?.map fun r => buildCard r i := by
  simp only [renderCards, List.getElem?_map, List.getElem?_enum]
  cases shown[i]? <;> rfl

theorem loadGitHubProjects_success (page : Page) (timeText : JSString) (status : Nat)
    (repos : List Repo) (hok : 200 ≤ status ∧ status ≤ 299) (hq : ∃ r ∈ repos, Qualifies r) :
    (loadGitHubProjects page timeText (.response status (.ok repos))).grid
        = (renderCards (repos.filter fun r => decide (Qualifies r))).flatten
      ∧ (loadGitHubProjects page timeText (.response status (.ok repos))).metaNum
        = page.metaNum.map (fun _ =>
            numberToString (repos.filter fun r => decide (Qualifies r)).length)
      ∧ gridWrites (loadGitHubProjectsWrites page timeText (.response status (.ok repos)))
        = [(renderCards (repos.filter fun r => decide (Qualifies r))).flatten] := by
  obtain ⟨grid, syncStatus, metaNum⟩ := page
  simp only [loadGitHubProjects, loadGitHubProjectsWrites, syncBody_success _ _ _ _ hok hq]
  cases metaNum <;> cases syncStatus <;> simp [Page.write, gridWrites]

theorem loadGitHubProjects_failure (page : Page) (timeText : JSString) (res : FetchResult)
    (h : res.Fails) :
    (loadGitHubProjects page timeText res).grid = errorNotice
      ∧ (loadGitHubProjects page timeText res).syncStatus
        = page.syncStatus.map (fun _ => lit "Could not sync — see GitHub")
      ∧ (loadGitHubProjects page timeText res).metaNum = page.metaNum
      ∧ gridWrites (loadGitHubProjectsWrites page timeText res) = [errorNotice] := by
  obtain ⟨message, hm⟩ := syncBody_failure page timeText res h
  obtain ⟨grid, syncStatus, metaNum⟩ := page
  simp only [loadGitHubProjects, loadGitHubProjectsWrites, hm]
  cases syncStatus <;> simp [Page.write, gridWrites]

theorem not_qualifies_my_config (r : Repo) (h : r.name = lit "my-config") : ¬ Qualifies r := by
  have hc : lit "config" <:+: toLowerCase (lit "my-config") := by decide
  intro hq
  exact hq.2.2.1 (h ▸ hc)

/-- C2: on a successful response with at least one qualifying record, the container holds
the concatenated `buildCard` outputs of exactly the qualifying records (not a fork, name
not the account name ignoring case, name containing neither "config" nor ".github"), in
the response's order, each built with its position among them; the number of cards is
the number of qualifying records, and a record named "my-config" is never among them. -/
theorem loadGitHubProjects_renders_qualifying (page : Page) (timeText : JSString)
    (status : Nat) (repos : List Repo) (hok : 200 ≤ status ∧ status ≤ 299)
    (hq : ∃ r ∈ repos, Qualifies r) :
    (loadGitHubProjects page timeText (.response status (.ok repos))).grid
        = (renderCards (qualifying repos)).flatten
      ∧ gridWrites (loadGitHubProjectsWrites page timeText (.response status (.ok repos)))
        = [(renderCards (qualifying repos)).flatten]
      ∧ (∀ i, (renderCards (qualifying repos))[i]?
          = (qualifying repos)[i]?.map fun r => buildCard r i)
      ∧ (renderCards (qualifying repos)).length = repos.countP (fun r => decide (Qualifies r))
      ∧ (qualifying repos).Sublist repos
      ∧ (∀ r, r ∈ qualifying repos ↔ r ∈ repos ∧ Qualifies r)
      ∧ (∀ r, r.name = lit "my-config" → r ∉ qualifying repos) := by
  have hs := loadGitHubProjects_success page timeText status repos hok hq
  refine ⟨hs.1, hs.2.2, renderCards_getElem? _, ?_, List.filter_sublist _, ?_, ?_⟩
  · simp only [renderCards, qualifying, List.length_map, List.enum_length,
      List.countP_eq_length_filter]
  · intro r
    simp only [qualifying, List.mem_filter, decide_eq_true_eq]
  · intro r hr hmem
    simp only [qualifying, List.mem_filter, decide_eq_true_eq] at hmem
    exact not_qualifies_my_config r hr hmem.2

theorem loadGitHubProjects_renders_qualifying_witness :
    (200 ≤ 200 ∧ 200 ≤ 299) ∧ (∃ r ∈ mixedRepos, Qualifies r)
      ∧ (loadGitHubProjects samplePage (lit "10:42 AM") (.response 200 (.ok mixedRepos))).grid
        = buildCard eyeRepo 0 :=
  have hok : 200 ≤ 200 ∧ 200 ≤ 299 := by decide
  have hq : ∃ r ∈ mixedRepos, Qualifies r := ⟨eyeRepo, by decide, by decide⟩
  have hf : qualifying mixedRepos = [eyeRepo] := by decide
  ⟨hok, hq,
    (loadGitHubProjects_renders_qualifying samplePage (lit "10:42 AM") 200 mixedRepos hok hq).1.trans
      (by rw [hf]; simp [renderCards, List.enum, List.enumFrom])⟩

/-- C7: on a successful sync (success status, at least one qualifying record) with the
counter element present, the counter's text becomes the decimal rendering of the number
of qualifying records, which is the number of rendered cards; five qualifying records
give "5". -/
theorem loadGitHubProjects_counter_text (page : Page) (timeText : JSString) (status : Nat)
    (repos : List Repo) (hok : 200 ≤ status ∧ status ≤ 299) (hq : ∃ r ∈ repos, Qualifies r)
    (hc : page.metaNum.isSome = true) :
    (loadGitHubProjects page timeText (.response status (.ok repos))).metaNum
        = some ((Nat.digits 10 (qualifying repos).length).reverse.map (48 + ·))
      ∧ (renderCards (qualifying repos)).length = (qualifying repos).length
      ∧ ((qualifying repos).length = 5 →
          (loadGitHubProjects page timeText (.response status (.ok repos))).metaNum
            = some (lit "5")) := by
  have hs := (loadGitHubProjects_success page timeText status repos hok hq).2.1
  obtain ⟨old, hold⟩ := Option.isSome_iff_exists.1 hc
  have hpos : (0 : Int) < ((qualifying repos).length : Int) := by
    obtain ⟨r, hr, hqr⟩ := hq
    have hmem : r ∈ qualifying repos := by
      simp only [qualifying, List.mem_filter, decide_eq_true_eq]
      exact ⟨hr, hqr⟩
    exact_mod_cast List.length_pos_of_mem hmem
  have hm : (loadGitHubProjects page timeText (.response status (.ok repos))).metaNum
      = some (numberToString ((qualifying repos).length : Int)) := by
    rw [hs, hold]
    rfl
  refine ⟨?_, ?_, ?_⟩
  · rw [hm, numberToString_pos _ hpos, Int.toNat_ofNat]
  · simp only [renderCards, List.length_map, List.enum_length]
  · intro h5
    rw [hm, h5]
    rfl

theorem loadGitHubProjects_counter_text_witness :
    (200 ≤ 200 ∧ 200 ≤ 299) ∧ (∃ r ∈ fiveRepos, Qualifies r)
      ∧ samplePage.metaNum.isSome = true
      ∧ (qualifying fiveRepos).length = 5
      ∧ (loadGitHubProjects samplePage (lit "10:42 AM") (.response 200 (.ok fiveRepos))).metaNum
        = some (lit "5") :=
  have hok : 200 ≤ 200 ∧ 200 ≤ 299 := by decide
  have hq : ∃ r ∈ fiveRepos, Qualifies r := ⟨eyeRepo, by decide, by decide⟩
  have h5 : (qualifying fiveRepos).length = 5 := by decide
  ⟨hok, hq, rfl, h5,
    (loadGitHubProjects_counter_text samplePage (lit "10:42 AM") 200 fiveRepos hok hq rfl).2.2 h5⟩

set_option maxRecDepth 100000 in
theorem errorNotice_no_card :
    includes errorNotice (lit "project-card") = false
      ∧ includes errorNotice (lit "<article") = false := by
  decide

/-- C3: on a network failure, a non-success status, or a success response with no
qualifying record (also on an unreadable body), `loadGitHubProjects` ends with the
container holding exactly the static "Could not load live GitHub data" notice with its
link to the GitHub profile, which contains no project card; the notice is the only value
ever written to the container, and the status text is "Could not sync — see GitHub" when
the status element exists. -/
theorem loadGitHubProjects_failure_notice (page : Page) (timeText : JSString)
    (res : FetchResult) (h : res.Fails) :
    (loadGitHubProjects page timeText res).grid = errorNotice
      ∧ gridWrites (loadGitHubProjectsWrites page timeText res) = [errorNotice]
      ∧ (∀ old, page.syncStatus = some old →
          (loadGitHubProjects page timeText res).syncStatus
            = some (lit "Could not sync — see GitHub"))
      ∧ (page.syncStatus = none → (loadGitHubProjects page timeText res).syncStatus = none)
      ∧ (loadGitHubProjects page timeText res).metaNum = page.metaNum
      ∧ lit "Could not load live GitHub data" <:+: errorNotice
      ∧ lit "<a href=\"https://github.com/Bavatarinee\"" <:+: errorNotice
      ∧ ¬ lit "project-card" <:+: errorNotice
      ∧ ¬ lit "<article" <:+: errorNotice := by
  have hf := loadGitHubProjects_failure page timeText res h
  refine ⟨hf.1, hf.2.2.2, ?_, ?_, hf.2.2.1, ?_, ?_, ?_, ?_⟩
  · intro old hold
    rw [hf.2.1, hold]
    rfl
  · intro hnone
    rw [hf.2.1, hnone]
    rfl
  · exact (includes_iff _ _).1 (by decide)
  · exact (includes_iff _ _).1 (by decide)
  · exact (includes_eq_false_iff _ _).1 errorNotice_no_card.1
  · exact (includes_eq_false_iff _ _).1 errorNotice_no_card.2

theorem loadGitHubProjects_failure_notice_witness :
    (FetchResult.response 200 (.ok [forkedRepo, configRepo, profileRepo])).Fails
      ∧ (loadGitHubProjects samplePage (lit "10:42 AM")
          (.response 200 (.ok [forkedRepo, configRepo, profileRepo])))
        = { grid := errorNotice, syncStatus := some (lit "Could not sync — see GitHub"),
            metaNum := some (lit "10+") } :=
  have hfail : (FetchResult.response 200 (.ok [forkedRepo, configRepo, profileRepo])).Fails :=
    Or.inr (Or.inr ⟨_, rfl, by decide⟩)
  have hw := loadGitHubProjects_failure_notice samplePage (lit "10:42 AM")
    (.response 200 (.ok [forkedRepo, configRepo, profileRepo])) hfail
  ⟨hfail, by
    have h1 := hw.1
    have h2 := hw.2.2.1 _ rfl
    have h3 := hw.2.2.2.2.1
    revert h1 h2 h3
    generalize loadGitHubProjects samplePage (lit "10:42 AM")
      (.response 200 (.ok [forkedRepo, configRepo, profileRepo])) = q
    obtain ⟨g, st, m⟩ := q
    rintro rfl rfl rfl
    rfl⟩

/-! ## Scan line -/

theorem scanYAfter_closed_form (H n : ℕ) :
    scanYAfter H n = (((n + 120) % (2 * H + 241) : ℕ) : ℚ) / 2 - 60 := by
  induction n with
  | zero =>
    have h : (0 + 120) % (2 * H + 241) = 120 := Nat.mod_eq_of_lt (by omega)
    rw [h]
    norm_num [scanYAfter]
  | succ n ih =>
    have hlt : (n + 120) % (2 * H + 241) < 2 * H + 241 := Nat.mod_lt _ (by omega)
    have hstep : (n + 1 + 120) % (2 * H + 241)
        = ((n + 120) % (2 * H + 241) + 1) % (2 * H + 241) := by
      have h1 : 1 % (2 * H + 241) = 1 := Nat.mod_eq_of_lt (by omega)
      rw [show n + 1 + 120 = n + 120 + 1 by ring, Nat.add_mod, h1]
    rw [hstep]
    simp only [scanYAfter, ih, drawScanLine]
    generalize (n + 120) % (2 * H + 241) = m at hlt
    by_cases hwrap : m + 1 = 2 * H + 241
    · have hq : (m : ℚ) + 1 = 2 * H + 241 := by exact_mod_cast hwrap
      have hgt : (m : ℚ) / 2 - 60 + 1 / 2 > H + 60 := by linarith
      rw [if_pos hgt, hwrap, Nat.mod_self]
      norm_num
    · have hlt2 : m + 1 < 2 * H + 241 := by omega
      have hq : (m : ℚ) + 1 < 2 * H + 241 := by exact_mod_cast hlt2
      have hq2 : (m : ℚ) + 1 ≤ 2 * H + 240 := by
        have : m + 1 ≤ 2 * H + 240 := by omega
        exact_mod_cast this
      have hle : ¬ (m : ℚ) / 2 - 60 + 1 / 2 > H + 60 := by
        rw [not_lt]
        linarith
      rw [if_neg hle, Nat.mod_eq_of_lt hlt2]
      push_cast
      ring

/-- C6 (as stated) fails: on a canvas of height 0 the offset after 121 calls is −60, which
is not congruent to 0.5 · 121 = 60.5 modulo 0 + 120. -/
theorem scanY_not_congruent_mod_height_plus_120 :
    ¬ ∃ k : ℤ, scanYAfter 0 121 = 1 / 2 * 121 + k * (0 + 120) := by
  have hc : scanYAfter 0 121 = -60 := by
    have h := scanYAfter_closed_form 0 121
    norm_num at h
    exact h
  rintro ⟨k, hk⟩
  rw [hc] at hk
  have h2 : (240 : ℚ) * k = -241 := by linarith
  have h3 : (240 : ℤ) * k = -241 := by exact_mod_cast h2
  omega

/-- C6 (amended): for a canvas height `H` (a natural number) the scan-line offset, which
starts at 0, gains 0.5 per call and is set to −60 once it exceeds `H + 60`, is periodic
with period `2·H + 241` calls, so every value it takes is taken again; it stays within
`[−60, H + 60]`, and after `n` calls it is congruent to `0.5·n` modulo `H + 120.5`. -/
theorem scanY_periodic (H n : ℕ) :
    scanYAfter H (n + (2 * H + 241)) = scanYAfter H n
      ∧ (∃ m, 0 < m ∧ scanYAfter H (n + m) = scanYAfter H n)
      ∧ (-60 ≤ scanYAfter H n ∧ scanYAfter H n ≤ H + 60)
      ∧ ∃ k : ℤ, scanYAfter H n = 1 / 2 * n + k * ((H : ℚ) + 120 + 1 / 2) := by
  have hper : scanYAfter H (n + (2 * H + 241)) = scanYAfter H n := by
    rw [scanYAfter_closed_form, scanYAfter_closed_form]
    have : (n + (2 * H + 241) + 120) % (2 * H + 241) = (n + 120) % (2 * H + 241) := by
      rw [show n + (2 * H + 241) + 120 = n + 120 + (2 * H + 241) by ring, Nat.add_mod_right]
    rw [this]
  refine ⟨hper, ⟨2 * H + 241, by omega, hper⟩, ?_, ?_⟩
  · rw [scanYAfter_closed_form]
    have hlt : (n + 120) % (2 * H + 241) < 2 * H + 241 := Nat.mod_lt _ (by omega)
    generalize (n + 120) % (2 * H + 241) = m at hlt
    have h1 : (0 : ℚ) ≤ m := Nat.cast_nonneg m
    have h2 : (m : ℚ) ≤ 2 * H + 240 := by
      have : m ≤ 2 * H + 240 := by omega
      exact_mod_cast this
    constructor <;> linarith
  · refine ⟨-(((n + 120) / (2 * H + 241) : ℕ) : ℤ), ?_⟩
    rw [scanYAfter_closed_form]
    have hdiv : (n + 120) % (2 * H + 241) + (2 * H + 241) * ((n + 120) / (2 * H + 241))
        = n + 120 := Nat.mod_add_div _ _
    generalize (n + 120) % (2 * H + 241) = m at hdiv
    generalize (n + 120) / (2 * H + 241) = q at hdiv
    have hq : (m : ℚ) + (2 * H + 241) * q = n + 120 := by exact_mod_cast hdiv
    push_cast
    linarith

/-! ## Particles -/

theorem reset_inv (W H : ℚ) (initial : Bool) (d : Draws) (hd : d.InRange) :
    (Particle.reset W H initial d).Inv := by
  obtain ⟨-, -, -, -, -, -, ⟨h0, h1⟩, -⟩ := hd
  simp only [Particle.Inv, Particle.reset]
  refine ⟨le_refl _, ?_, ?_, ?_⟩ <;> linarith

theorem update_cases (W H : ℚ) (p : Particle) (d : Draws) (hp : p.Inv) :
    (¬ (p.age + 1 > p.life ∨ p.y + p.vy < -10)
        ∧ (Particle.update W H p d).age = p.age + 1
        ∧ (Particle.update W H p d).life = p.life
        ∧ 0 ≤ (Particle.update W H p d).age
        ∧ (Particle.update W H p d).age ≤ (Particle.update W H p d).life)
      ∨ ((p.age + 1 > p.life ∨ p.y + p.vy < -10)
        ∧ Particle.update W H p d = Particle.reset W H false d
        ∧ (Particle.update W H p d).age = 0
        ∧ (Particle.update W H p d).y = H + 10) := by
  by_cases hc : p.age + 1 > p.life ∨ p.y + p.vy < -10
  · right
    have hu : Particle.update W H p d = Particle.reset W H false d := by
      simp only [Particle.update, hc, if_true]
    refine ⟨hc, hu, ?_, ?_⟩ <;> rw [hu] <;> simp [Particle.reset]
  · left
    have hu : Particle.update W H p d
        = { p with x := p.x + p.vx, y := p.y + p.vy, age := p.age + 1 } := by
      simp only [Particle.update, hc, if_false]
    have hle : p.age + 1 ≤ p.life := by
      by_contra hgt
      exact hc (Or.inl (lt_of_not_le hgt))
    refine ⟨hc, ?_, ?_, ?_, ?_⟩ <;> rw [hu] <;> simp only
    · linarith [hp.1]
    · exact hle

theorem update_inv (W H : ℚ) (p : Particle) (d : Draws) (hp : p.Inv) (hd : d.InRange) :
    (Particle.update W H p d).Inv := by
  rcases update_cases W H p d hp with ⟨-, -, hl, h0, h1⟩ | ⟨-, hu, -, -⟩
  · exact ⟨h0, h1, hl ▸ hp.2.2.1, hl ▸ hp.2.2.2⟩
  · rw [hu]
    exact reset_inv W H false d hd

theorem foldl_update_inv (W H : ℚ) (ds : List Draws) :
    ∀ p : Particle, p.Inv → (∀ e ∈ ds, e.InRange) →
      (ds.foldl (Particle.update W H) p).Inv := by
  induction ds with
  | nil => intro p hp _; exact hp
  | cons e es ih =>
    intro p hp hes
    exact ih _ (update_inv W H p e hp (hes e (List.mem_cons_self _ _)))
      fun e' he' => hes e' (List.mem_cons_of_mem _ he')

theorem run_inv (W H : ℚ) (initial : Bool) (d0 : Draws) (ds : List Draws) (h0 : d0.InRange)
    (hds : ∀ e ∈ ds, e.InRange) : (Particle.run W H initial d0 ds).Inv :=
  foldl_update_inv W H ds _ (reset_inv W H initial d0 h0) hds

/-- C5: starting from a state produced by `reset` (age 0, life in [100, 300)), after any
number of `update()` calls the next `update()` either leaves the particle un-reset, with
age one larger than before and `0 ≤ age ≤ life`, or resets it, which happens exactly when
the incremented age exceeds life or the advanced `y` is below −10, and then `age = 0` and
`y = H + 10`; in both cases `0 ≤ age ≤ life` holds after the call. -/
theorem update_age_within_life (W H : ℚ) (initial : Bool) (d0 : Draws) (ds : List Draws)
    (d : Draws) (h0 : d0.InRange) (hds : ∀ e ∈ ds, e.InRange) (hd : d.InRange) :
    ((Particle.reset W H initial d0).age = 0
        ∧ 100 ≤ (Particle.reset W H initial d0).life
        ∧ (Particle.reset W H initial d0).life < 300)
      ∧ ((¬ ((Particle.run W H initial d0 ds).age + 1 > (Particle.run W H initial d0 ds).life
              ∨ (Particle.run W H initial d0 ds).y + (Particle.run W H initial d0 ds).vy < -10)
            ∧ (Particle.update W H (Particle.run W H initial d0 ds) d).age
              = (Particle.run W H initial d0 ds).age + 1
            ∧ 0 ≤ (Particle.update W H (Particle.run W H initial d0 ds) d).age
            ∧ (Particle.update W H (Particle.run W H initial d0 ds) d).age
              ≤ (Particle.update W H (Particle.run W H initial d0 ds) d).life)
          ∨ (((Particle.run W H initial d0 ds).age + 1 > (Particle.run W H initial d0 ds).life
              ∨ (Particle.run W H initial d0 ds).y + (Particle.run W H initial d0 ds).vy < -10)
            ∧ Particle.update W H (Particle.run W H initial d0 ds) d
              = Particle.reset W H false d
            ∧ (Particle.update W H (Particle.run W H initial d0 ds) d).age = 0
            ∧ (Particle.update W H (Particle.run W H initial d0 ds) d).y = H + 10))
      ∧ 0 ≤ (Particle.update W H (Particle.run W H initial d0 ds) d).age
      ∧ (Particle.update W H (Particle.run W H initial d0 ds) d).age
        ≤ (Particle.update W H (Particle.run W H initial d0 ds) d).life
      ∧ Particle.run W H initial d0 (ds ++ [d])
        = Particle.update W H (Particle.run W H initial d0 ds) d := by
  have hr := reset_inv W H initial d0 h0
  have hp := run_inv W H initial d0 ds h0 hds
  have hq := update_inv W H _ d hp hd
  refine ⟨⟨rfl, hr.2.2.1, hr.2.2.2⟩, ?_, hq.1, hq.2.1, ?_⟩
  · rcases update_cases W H _ d hp with ⟨a, b, -, c, e⟩ | h
    · exact Or.inl ⟨a, b, c, e⟩
    · exact Or.inr h
  · simp only [Particle.run, List.foldl_append, List.foldl_cons, List.foldl_nil]

theorem update_age_within_life_witness :
    halfDraws.InRange ∧ (∀ e ∈ [halfDraws, halfDraws], e.InRange)
      ∧ (Particle.update 800 600 (Particle.run 800 600 true halfDraws [halfDraws, halfDraws])
          halfDraws).age = 3
      ∧ (3 : ℚ) ≤ (Particle.update 800 600
          (Particle.run 800 600 true halfDraws [halfDraws, halfDraws]) halfDraws).life :=
  have h0 : halfDraws.InRange := by norm_num [Draws.InRange, halfDraws]
  have hds : ∀ e ∈ [halfDraws, halfDraws], e.InRange := by
    intro e he
    simp only [List.mem_cons, List.mem_singleton, List.not_mem_nil, or_false, or_self] at he
    exact he ▸ h0
  have hw := update_age_within_life 800 600 true halfDraws [halfDraws, halfDraws] halfDraws
    h0 hds h0
  have hage : (Particle.update 800 600
      (Particle.run 800 600 true halfDraws [halfDraws, halfDraws]) halfDraws).age = 3 := by
    norm_num [Particle.run, Particle.update, Particle.reset, halfDraws]
  ⟨h0, hds, hage, hage ▸ hw.2.2.2.1⟩

/-- C4: for a particle with `life > 0` and `0 ≤ age ≤ life`, with `t = age / life` in exact
rational arithmetic, the opacity `draw` assigns is `alpha · (t / 0.1)` when `t < 0.1`,
`alpha` when `0.1 ≤ t ≤ 0.8`, and `alpha · ((1 − t) / 0.2)` when `t > 0.8`; it is 0 at
`t = 0`, `alpha` at `t = 0.1` and at `t = 0.8`, 0 at `t = 1`, always `alpha` times a
factor in [0, 1], and so between 0 and `alpha` (for the non-negative `alpha` every
particle has). -/
theorem draw_opacity_profile (p : Particle) (hlife : 0 < p.life) (hage0 : 0 ≤ p.age)
    (hage : p.age ≤ p.life) :
    (p.age / p.life < 1 / 10 → p.draw = p.alpha * (p.age / p.life / (1 / 10)))
      ∧ (1 / 10 ≤ p.age / p.life → p.age / p.life ≤ 8 / 10 → p.draw = p.alpha)
      ∧ (8 / 10 < p.age / p.life → p.draw = p.alpha * ((1 - p.age / p.life) / (2 / 10)))
      ∧ (p.age / p.life = 0 → p.draw = 0)
      ∧ (p.age / p.life = 1 / 10 → p.draw = p.alpha)
      ∧ (p.age / p.life = 8 / 10 → p.draw = p.alpha)
      ∧ (p.age / p.life = 1 → p.draw = 0)
      ∧ (∃ f : ℚ, 0 ≤ f ∧ f ≤ 1 ∧ p.draw = p.alpha * f)
      ∧ (0 ≤ p.alpha → 0 ≤ p.draw ∧ p.draw ≤ p.alpha) := by
  have ht0 : 0 ≤ p.age / p.life := div_nonneg hage0 hlife.le
  have ht1 : p.age / p.life ≤ 1 := (div_le_one hlife).2 hage
  have hdraw : p.draw = p.alpha * (if p.age / p.life < 1 / 10 then p.age / p.life / (1 / 10)
      else if p.age / p.life > 8 / 10 then (1 - p.age / p.life) / (2 / 10) else 1) := rfl
  generalize p.age / p.life = t at ht0 ht1 hdraw
  have hfac : ∃ f : ℚ, 0 ≤ f ∧ f ≤ 1 ∧ p.draw = p.alpha * f := by
    refine ⟨_, ?_, ?_, hdraw⟩
    · split_ifs with h1 h2
      · exact div_nonneg ht0 (by norm_num)
      · exact div_nonneg (by linarith) (by norm_num)
      · norm_num
    · split_ifs with h1 h2
      · rw [div_le_iff₀ (by norm_num)]
        linarith
      · rw [div_le_iff₀ (by norm_num)]
        linarith
      · exact le_refl _
  refine ⟨?_, ?_, ?_, ?_, ?_, ?_, ?_, hfac, ?_⟩
  · intro h
    rw [hdraw, if_pos h]
  · intro h1 h2
    rw [hdraw, if_neg (not_lt.2 h1), if_neg (not_lt.2 h2), mul_one]
  · intro h
    have h1 : ¬ t < 1 / 10 := by
      rw [not_lt]
      linarith
    rw [hdraw, if_neg h1, if_pos h]
  · intro h
    rw [hdraw, h]
    norm_num
  · intro h
    rw [hdraw, h]
    norm_num
  · intro h
    rw [hdraw, h]
    norm_num
  · intro h
    rw [hdraw, h]
    norm_num
  · intro ha
    obtain ⟨f, hf0, hf1, hf⟩ := hfac
    rw [hf]
    exact ⟨mul_nonneg ha hf0, mul_le_of_le_one_right ha hf1⟩

theorem draw_opacity_profile_witness :
    (0 : ℚ) < sampleParticle.life ∧ 0 ≤ sampleParticle.age
      ∧ sampleParticle.age ≤ sampleParticle.life ∧ sampleParticle.draw = 1 / 2 :=
  have hlife : (0 : ℚ) < sampleParticle.life := by norm_num [sampleParticle]
  have hage0 : (0 : ℚ) ≤ sampleParticle.age := by norm_num [sampleParticle]
  have hage : sampleParticle.age ≤ sampleParticle.life := by norm_num [sampleParticle]
  ⟨hlife, hage0, hage,
    (draw_opacity_profile sampleParticle hlife hage0 hage).2.1
      (by norm_num [sampleParticle]) (by norm_num [sampleParticle])⟩

end Portfolio
